import Mathlib

/-!
Shallow embedding of the optimistic task-state reconciliation logic of the
Task Manager application (components TaskManager and TaskCard, plus the
shared type declarations). Machine state is modelled explicitly: the task
cache is a list of task records, the selection set is a finite set of id
strings, remote outcomes are boolean flags, and dates or timestamps are
integers (days at local midnight, respectively milliseconds).
-/

namespace TaskApp

/-- Priority enum of the Task record type. -/
inductive Priority where
  | low
  | medium
  | high
deriving DecidableEq

/-- Workflow status enum of the Task record type. -/
inductive Status where
  | todo
  | inProgress
  | done
deriving DecidableEq, BEq

/-- Sort options offered by the FilterSort component. -/
inductive SortOption where
  | newest
  | oldest
  | due_date
  | priority
deriving DecidableEq

/-- Due-date range filter values of FilterOptions. -/
inductive DueRange where
  | all
  | overdue
  | today
  | week
  | month
deriving DecidableEq

/-- The Task record, as declared in the shared types module. Dates and
timestamps are integers: due_date is the day number at local midnight,
created_at and updated_at are epoch timestamps. -/
structure Task where
  id : String
  user_id : String
  title : String
  description : String
  category : String
  priority : Priority
  status : Status
  due_date : Option Int
  completed : Bool
  created_at : Int
  updated_at : Int
deriving DecidableEq

/-- FilterOptions as declared in the shared types module; the category,
priority and status selectors are strings with the sentinel value all. -/
structure FilterOptions where
  category : String
  priority : String
  status : String
  dueDateRange : DueRange

/-- The data object submitted by TaskForm: exactly the six form fields. -/
structure TaskFormData where
  title : String
  description : String
  category : String
  priority : Priority
  status : Status
  due_date : Option Int

/-- Rendering of a priority value as the string used by FilterOptions. -/
def priorityStr : Priority → String
  | .low => "low"
  | .medium => "medium"
  | .high => "high"

/-- Rendering of a status value as the string used by FilterOptions. -/
def statusStr : Status → String
  | .todo => "todo"
  | .inProgress => "in-progress"
  | .done => "done"

/-- A change-feed event carrying its record: payload.new for insert and
update events, payload.old for delete events. -/
inductive FeedEvent where
  | insertEv (t : Task)
  | updateEv (t : Task)
  | deleteEv (t : Task)

/-- Change-feed ingestion from subscribeToTasks: events whose record
belongs to another user are discarded; INSERT prepends unless a record
with the same id is already present; UPDATE maps over the cache replacing
the record with a matching id; DELETE filters the id out. -/
def applyFeedEvent (uid : String) (cache : List Task) : FeedEvent → List Task
  | .insertEv t =>
    if t.user_id ≠ uid then cache
    else if cache.any (fun c => decide (c.id = t.id)) then cache
    else t :: cache
  | .updateEv t =>
    if t.user_id ≠ uid then cache
    else cache.map (fun c => if c.id = t.id then t else c)
  | .deleteEv t =>
    if t.user_id ≠ uid then cache
    else cache.filter (fun c => decide (¬ c.id = t.id))

/-- Result of the duplicate-title precheck query issued by handleCreateTask
and handleUpdateTask: remote rows with matching user_id and title, limited
to one row. -/
def existingTasksFor (remote : List Task) (uid title : String) : List Task :=
  (remote.filter (fun t => decide (t.user_id = uid) && decide (t.title = title))).take 1

/-- Input of a create request, before the controller fills in user_id and
the default status. The status field is optional because the payload is a
partial record; the source applies the default with a truthiness test. -/
structure CreateInput where
  title : String
  description : String
  category : String
  priority : Priority
  status : Option Status
  due_date : Option Int

/-- Outcome of handleCreateTask. -/
inductive CreateResult where
  | fetchFailed
  | duplicateTitle
  | insertFailed
  | ok (t : Task)
deriving DecidableEq

/-- The row returned by the remote store on insert success: the sent fields
plus the server assigned id and timestamps; completed defaults to false and
status to todo when unspecified, as in the insert payload of the source. -/
def serverInsert (uid newId : String) (now : Int) (inp : CreateInput) : Task :=
  { id := newId
    user_id := uid
    title := inp.title
    description := inp.description
    category := inp.category
    priority := inp.priority
    status := inp.status.getD Status.todo
    due_date := inp.due_date
    completed := false
    created_at := now
    updated_at := now }

/-- Cache effect and result of handleCreateTask: duplicate-title precheck
against the remote store first (its own fetch may fail), then the insert
(which may fail); only insert success touches the cache, by prepending the
server-returned record. -/
def handleCreateTask (remote cache : List Task) (uid : String) (inp : CreateInput)
    (fetchErr insertErr : Bool) (newId : String) (now : Int) : CreateResult × List Task :=
  if fetchErr then (.fetchFailed, cache)
  else if (existingTasksFor remote uid inp.title).length > 0 then (.duplicateTitle, cache)
  else if insertErr then (.insertFailed, cache)
  else
    let newTask := serverInsert uid newId now inp
    (.ok newTask, newTask :: cache)

/-- Spread of the form data over the task being edited, as in the
optimisticUpdate object of handleUpdateTask. -/
def mergePatch (t : Task) (p : TaskFormData) : Task :=
  { t with
    title := p.title
    description := p.description
    category := p.category
    priority := p.priority
    status := p.status
    due_date := p.due_date }

/-- Cache effect of handleUpdateTask for the task t0 being edited: when the
title is nonempty and changing, a duplicate-title precheck runs first and
any precheck failure aborts before the optimistic mutation; otherwise the
merged record is applied optimistically and, when the remote update fails,
the original record is written back by id. -/
def handleUpdateTaskCache (remote : List Task) (uid : String) (cache : List Task)
    (t0 : Task) (p : TaskFormData) (fetchErr updateFails : Bool) : List Task :=
  if p.title ≠ "" ∧ p.title ≠ t0.title ∧
      (fetchErr = true ∨ (existingTasksFor remote uid p.title).length > 0) then cache
  else
    let optimisticUpdate := mergePatch t0 p
    let afterOpt := cache.map (fun t => if t.id = t0.id then optimisticUpdate else t)
    if updateFails then afterOpt.map (fun t => if t.id = t0.id then t0 else t)
    else afterOpt

/-- Cache effect of handleDeleteTask: snapshot the record found for the id,
filter the id out optimistically, and on remote failure append the snapshot
at the end of the list. -/
def handleDeleteTaskCache (cache : List Task) (id : String) (fails : Bool) : List Task :=
  let taskToDelete := cache.find? (fun t => decide (t.id = id))
  let removed := cache.filter (fun t => decide (¬ t.id = id))
  if fails then
    match taskToDelete with
    | some t => removed ++ [t]
    | none => removed
  else removed

/-- Selection effect of handleDeleteTask: on remote success the deleted id
is removed from the selection when present; on failure the selection is
left untouched. -/
def handleDeleteTaskSel (sel : Finset String) (id : String) (fails : Bool) : Finset String :=
  if fails then sel
  else if id ∈ sel then sel.erase id else sel

/-- Cache effect of handleBulkDelete: with an empty selection nothing
happens; otherwise the selected records are snapshot, removed
optimistically, and appended back at the end on remote failure. -/
def handleBulkDeleteCache (cache : List Task) (sel : Finset String) (fails : Bool) : List Task :=
  if sel.card = 0 then cache
  else
    let tasksToDelete := cache.filter (fun t => decide (t.id ∈ sel))
    let removed := cache.filter (fun t => decide (¬ t.id ∈ sel))
    if fails then removed ++ tasksToDelete else removed

/-- Selection effect of handleBulkDelete: cleared on success, kept on
failure or when empty. -/
def handleBulkDeleteSel (sel : Finset String) (fails : Bool) : Finset String :=
  if sel.card = 0 then sel
  else if fails then sel else (∅ : Finset String)

/-- Cache effect of handleBulkMarkAsCompleted: with an empty selection
nothing happens; otherwise the selected records are snapshot, set to
completed and done optimistically, and on remote failure each entry is
restored from the snapshot found by id. -/
def handleBulkMarkAsCompletedCache (cache : List Task) (sel : Finset String)
    (fails : Bool) : List Task :=
  if sel.card = 0 then cache
  else
    let tasksToUpdate := cache.filter (fun t => decide (t.id ∈ sel))
    let optimistic := cache.map (fun t =>
      if t.id ∈ sel then { t with completed := true, status := Status.done } else t)
    if fails then
      optimistic.map (fun t =>
        match tasksToUpdate.find? (fun o => decide (o.id = t.id)) with
        | some o => o
        | none => t)
    else optimistic

/-- Cache effect of handleToggleComplete: nothing happens when the id is
not in the cache; otherwise only the completed field of the matching entry
is set optimistically and restored from the snapshot on remote failure. -/
def handleToggleCompleteCache (cache : List Task) (id : String) (completed : Bool)
    (fails : Bool) : List Task :=
  match cache.find? (fun t => decide (t.id = id)) with
  | none => cache
  | some task =>
    let optimistic := cache.map (fun t => if t.id = id then { t with completed := completed } else t)
    if fails then optimistic.map (fun t => if t.id = id then { t with completed := task.completed } else t)
    else optimistic

/-- Cache effect of handleStatusChange: nothing happens when the id is not
in the cache; otherwise only the status field of the matching entry is set
optimistically and restored from the snapshot on remote failure. -/
def handleStatusChangeCache (cache : List Task) (id : String) (status : Status)
    (fails : Bool) : List Task :=
  match cache.find? (fun t => decide (t.id = id)) with
  | none => cache
  | some task =>
    let optimistic := cache.map (fun t => if t.id = id then { t with status := status } else t)
    if fails then optimistic.map (fun t => if t.id = id then { t with status := task.status } else t)
    else optimistic

/-- Selection toggle from toggleTaskSelection: delete the id when present,
add it otherwise. -/
def toggleTaskSelection (sel : Finset String) (taskId : String) : Finset String :=
  if taskId ∈ sel then sel.erase taskId else insert taskId sel

/-- Select-all from selectAllTasks: when the selection size equals the
length of the visible list the whole selection is cleared, otherwise the
selection becomes the set of visible ids. -/
def selectAllTasks (sel : Finset String) (visible : List Task) : Finset String :=
  if sel.card = visible.length then (∅ : Finset String)
  else (visible.map (fun t => t.id)).toFinset

/-- Status list used by the status-cycle button of TaskCard. -/
def statuses : List Status := [Status.todo, Status.inProgress, Status.done]

/-- Next status computed by the status-cycle button of TaskCard: the entry
after the current one in the status list, wrapping by modulo. -/
def nextStatus (s : Status) : Status :=
  statuses.getD ((statuses.indexOf s + 1) % statuses.length) Status.todo

/-- Due-date bucket predicate of filteredAndSortedTasks. Tasks without a
due date never pass; today and monthFromNow are the day numbers computed
by the source from the current date at local midnight. -/
def duePass (today monthFromNow : Int) (range : DueRange) (t : Task) : Bool :=
  match t.due_date with
  | none => false
  | some d =>
    match range with
    | .overdue => decide (d < today) && !t.completed
    | .today => decide (d = today)
    | .week => decide (today ≤ d) && decide (d ≤ today + 7)
    | .month => decide (today ≤ d) && decide (d ≤ monthFromNow)
    | .all => true

/-- Filtering stage of filteredAndSortedTasks: each non-all selector
filters the list in sequence. -/
def filterTasks (today monthFromNow : Int) (filters : FilterOptions)
    (tasks : List Task) : List Task :=
  let f1 := if filters.category ≠ "all"
    then tasks.filter (fun t => decide (t.category = filters.category)) else tasks
  let f2 := if filters.priority ≠ "all"
    then f1.filter (fun t => decide (priorityStr t.priority = filters.priority)) else f1
  let f3 := if filters.status ≠ "all"
    then f2.filter (fun t => decide (statusStr t.status = filters.status)) else f2
  if filters.dueDateRange ≠ DueRange.all
    then f3.filter (duePass today monthFromNow filters.dueDateRange) else f3

/-- Priority rank table of the sort comparator. -/
def priorityOrder : Priority → Int
  | .high => 0
  | .medium => 1
  | .low => 2

/-- Sort comparator of filteredAndSortedTasks: completed tasks last, then
the chosen key. -/
def compareTasks (sortBy : SortOption) (a b : Task) : Int :=
  if a.completed && !b.completed then 1
  else if !a.completed && b.completed then -1
  else
    match sortBy with
    | .newest => b.created_at - a.created_at
    | .oldest => a.created_at - b.created_at
    | .due_date =>
      match a.due_date, b.due_date with
      | none, none => 0
      | none, some _ => 1
      | some _, none => -1
      | some x, some y => x - y
    | .priority => priorityOrder a.priority - priorityOrder b.priority

/-- Boolean order induced by the comparator. -/
def taskLE (sortBy : SortOption) (a b : Task) : Bool :=
  decide (compareTasks sortBy a b ≤ 0)

/-- Sorting stage of filteredAndSortedTasks. -/
def sortTasks (sortBy : SortOption) (l : List Task) : List Task :=
  l.mergeSort (taskLE sortBy)

/-- The projected list: filtering then sorting, as in the memo of the
source component. -/
def filteredAndSortedTasks (today monthFromNow : Int) (filters : FilterOptions)
    (sortBy : SortOption) (tasks : List Task) : List Task :=
  sortTasks sortBy (filterTasks today monthFromNow filters tasks)

/-- Uniqueness invariant of the cache: no two records share an id. -/
def uniqueIds (l : List Task) : Prop := (l.map Task.id).Nodup

instance (l : List Task) : Decidable (uniqueIds l) := by
  unfold uniqueIds; infer_instance

/-- Selection invariant: every selected id names a record in the cache. -/
def selInv (cache : List Task) (sel : Finset String) : Prop :=
  ∀ i ∈ sel, ∃ t ∈ cache, t.id = i

instance (cache : List Task) (sel : Finset String) : Decidable (selInv cache sel) := by
  unfold selInv; infer_instance

/-- Sample record used to evaluate the theorems on concrete inputs. -/
def taskA : Task :=
  { id := "a", user_id := "u", title := "Buy milk", description := "", category := "Work",
    priority := Priority.low, status := Status.todo, due_date := some 1,
    completed := false, created_at := 0, updated_at := 0 }

/-- Second sample record with a different id. -/
def taskB : Task :=
  { id := "b", user_id := "u", title := "Call mom", description := "", category := "Personal",
    priority := Priority.high, status := Status.todo, due_date := none,
    completed := false, created_at := 1, updated_at := 1 }

theorem map_self_of_fix {α : Type} {l : List α} {f : α → α} (h : ∀ a ∈ l, f a = a) :
    l.map f = l := by
  have := List.map_congr_left (l := l) (f := f) (g := id) h
  simpa using this

theorem map_idem {α : Type} (f : α → α) (hf : ∀ a, f (f a) = f a) (l : List α) :
    (l.map f).map f = l.map f := by
  rw [List.map_map]
  exact List.map_congr_left (fun a _ => hf a)

theorem idInj {l : List Task} (hu : uniqueIds l) {a b : Task}
    (ha : a ∈ l) (hb : b ∈ l) (h : a.id = b.id) : a = b :=
  List.inj_on_of_nodup_map hu ha hb h

/-- Claim C10: the selection toggle adds an absent id, removes a present
id, and toggling the same id twice in succession restores exactly the
original selection. -/
theorem toggle_selection_involution (sel : Finset String) (id : String) :
    (id ∉ sel → toggleTaskSelection sel id = insert id sel) ∧
    (id ∈ sel → toggleTaskSelection sel id = sel.erase id) ∧
    toggleTaskSelection (toggleTaskSelection sel id) id = sel := by
  by_cases h : id ∈ sel
  · refine ⟨fun hn => absurd h hn, fun _ => by simp [toggleTaskSelection, h], ?_⟩
    simp [toggleTaskSelection, h, Finset.not_mem_erase, Finset.insert_erase h]
  · refine ⟨fun _ => by simp [toggleTaskSelection, h], fun hn => absurd hn h, ?_⟩
    simp [toggleTaskSelection, h, Finset.mem_insert_self, Finset.erase_insert h]

theorem toggle_selection_involution_witness :
    ("a" ∉ (∅ : Finset String)) ∧
    toggleTaskSelection (∅ : Finset String) "a" = insert "a" (∅ : Finset String) ∧
    toggleTaskSelection (toggleTaskSelection (∅ : Finset String) "a") "a" = ∅ :=
  ⟨by simp, (toggle_selection_involution ∅ "a").1 (by simp),
    (toggle_selection_involution ∅ "a").2.2⟩

/-- Claim C9 counterexample: the visible list holds one task with id a and
the selection holds only the unrelated id b, so not every visible id is
selected; the claim then demands that select-all produce the visible id
set, yet the source compares sizes only and clears the selection. -/
theorem selectAll_cardinality_guard_cex :
    ("a" ∉ ({"b"} : Finset String)) ∧
    selectAllTasks {"b"} [taskA] = (∅ : Finset String) ∧
    (∅ : Finset String) ≠ ({"a"} : Finset String) := by
  refine ⟨by decide, by decide, by decide⟩

/-- Claim C9 (amended): select-all clears the selection exactly when the
selection size equals the number of visible tasks, in particular whenever
the selection is exactly the visible id set and the visible ids are
distinct; otherwise it sets the selection to exactly the visible ids. The
source guard compares cardinalities, not containment of the visible
ids. -/
theorem selectAll_scoped_view (sel : Finset String) (visible : List Task) :
    (sel.card = visible.length → selectAllTasks sel visible = ∅) ∧
    (sel.card ≠ visible.length →
      selectAllTasks sel visible = (visible.map (fun t => t.id)).toFinset) ∧
    ((visible.map (fun t => t.id)).Nodup → sel = (visible.map (fun t => t.id)).toFinset →
      selectAllTasks sel visible = ∅) := by
  refine ⟨fun h => by simp [selectAllTasks, h], fun h => by simp [selectAllTasks, h], ?_⟩
  intro hnd hsel
  have hc : sel.card = visible.length := by
    rw [hsel, List.toFinset_card_of_nodup hnd, List.length_map]
  simp [selectAllTasks, hc]

theorem selectAll_scoped_view_witness :
    (({"a"} : Finset String).card ≠ [taskA, taskB].length) ∧
    selectAllTasks {"a"} [taskA, taskB] = ({"a", "b"} : Finset String) := by
  refine ⟨by decide, ?_⟩
  have h := (selectAll_scoped_view {"a"} [taskA, taskB]).2.1 (by decide)
  rw [h]; decide

/-- Claim C4 counterexample: a change-feed update event for an id absent
from the cache leaves the cache unchanged instead of upserting the event
record; here the cache is empty, the event record belongs to the current
user, and ingestion returns the empty cache. -/
theorem feed_update_ignores_absent_id :
    taskA.user_id = "u" ∧
    applyFeedEvent "u" [] (FeedEvent.updateEv taskA) = [] := by
  constructor <;> rfl

/-- Claim C4 (amended): for change-feed events whose record belongs to the
current user, an insert event leaves the cache unchanged when the id is
already present and prepends the record when absent; an update event
replaces by id every entry carrying the id of the event record and leaves
the cache unchanged when the id is absent (it never inserts); a delete
event keeps exactly the records with a different id and is the identity
when the id is absent; ingesting the same insert or update event twice
yields the same cache as ingesting it once. -/
theorem feed_ingestion_semantics (uid : String) (cache : List Task) (t : Task)
    (hown : t.user_id = uid) :
    ((∃ c ∈ cache, c.id = t.id) → applyFeedEvent uid cache (FeedEvent.insertEv t) = cache) ∧
    ((∀ c ∈ cache, c.id ≠ t.id) → applyFeedEvent uid cache (FeedEvent.insertEv t) = t :: cache) ∧
    ((∀ c ∈ cache, c.id ≠ t.id) → applyFeedEvent uid cache (FeedEvent.updateEv t) = cache) ∧
    List.Forall₂ (fun c c1 => (c.id = t.id → c1 = t) ∧ (c.id ≠ t.id → c1 = c))
      cache (applyFeedEvent uid cache (FeedEvent.updateEv t)) ∧
    (∀ c, c ∈ applyFeedEvent uid cache (FeedEvent.deleteEv t) ↔ c ∈ cache ∧ c.id ≠ t.id) ∧
    ((∀ c ∈ cache, c.id ≠ t.id) → applyFeedEvent uid cache (FeedEvent.deleteEv t) = cache) ∧
    (applyFeedEvent uid (applyFeedEvent uid cache (FeedEvent.insertEv t)) (FeedEvent.insertEv t)
      = applyFeedEvent uid cache (FeedEvent.insertEv t)) ∧
    (applyFeedEvent uid (applyFeedEvent uid cache (FeedEvent.updateEv t)) (FeedEvent.updateEv t)
      = applyFeedEvent uid cache (FeedEvent.updateEv t)) := by
  refine ⟨?_, ?_, ?_, ?_, ?_, ?_, ?_, ?_⟩
  · intro ⟨c, hc, hid⟩
    have : cache.any (fun c => decide (c.id = t.id)) = true := by
      simp only [List.any_eq_true]
      exact ⟨c, hc, by simp [hid]⟩
    simp [applyFeedEvent, hown, this]
  · intro h
    have : cache.any (fun c => decide (c.id = t.id)) = false := by
      simp only [List.any_eq_false]
      intro c hc
      simp [h c hc]
    simp [applyFeedEvent, hown, this]
  · intro h
    simp only [applyFeedEvent, hown, ne_eq, not_true_eq_false, if_false]
    exact map_self_of_fix (fun c hc => by simp [h c hc])
  · simp only [applyFeedEvent, hown, ne_eq, not_true_eq_false, if_false]
    rw [List.forall₂_map_right_iff, List.forall₂_same]
    intro c _
    by_cases h : c.id = t.id <;> simp [h]
  · intro c
    simp [applyFeedEvent, hown, List.mem_filter]
  · intro h
    simp only [applyFeedEvent, hown, ne_eq, not_true_eq_false, if_false]
    rw [List.filter_eq_self]
    intro c hc
    simp [h c hc]
  · by_cases h : cache.any (fun c => decide (c.id = t.id)) = true
    · simp [applyFeedEvent, hown, h]
    · simp only [Bool.not_eq_true] at h
      simp [applyFeedEvent, hown, h]
  · simp only [applyFeedEvent, hown, ne_eq, not_true_eq_false, if_false]
    exact map_idem _ (fun a => by by_cases h : a.id = t.id <;> simp [h]) cache

theorem feed_ingestion_semantics_witness :
    applyFeedEvent "u" [taskA] (FeedEvent.insertEv taskA) = [taskA] ∧
    applyFeedEvent "u" [taskB] (FeedEvent.insertEv taskA) = [taskA, taskB] ∧
    applyFeedEvent "u" [taskB] (FeedEvent.updateEv taskA) = [taskB] := by
  have h1 := feed_ingestion_semantics "u" [taskA] taskA rfl
  have h2 := feed_ingestion_semantics "u" [taskB] taskA rfl
  exact ⟨h1.1 ⟨taskA, by simp⟩, h2.2.1 (by decide), h2.2.2.1 (by decide)⟩

theorem exists_dup_iff (remote : List Task) (uid title : String) :
    (existingTasksFor remote uid title).length > 0 ↔
      ∃ t ∈ remote, t.user_id = uid ∧ t.title = title := by
  unfold existingTasksFor
  rw [List.length_take]
  constructor
  · intro h
    have hf : (remote.filter
        (fun t => decide (t.user_id = uid) && decide (t.title = title))).length > 0 := by
      omega
    obtain ⟨t, ht⟩ := List.exists_mem_of_ne_nil _ (List.length_pos.mp hf)
    have hm := List.mem_filter.mp ht
    refine ⟨t, hm.1, ?_⟩
    simpa using hm.2
  · intro ⟨t, ht, h1, h2⟩
    have hm : t ∈ remote.filter
        (fun t => decide (t.user_id = uid) && decide (t.title = title)) :=
      List.mem_filter.mpr ⟨ht, by simp [h1, h2]⟩
    have := List.length_pos.mpr (List.ne_nil_of_mem hm)
    omega

/-- Claim C5: creation is not optimistic. When the precheck fetch succeeds
and a task with the same owner and title exists in the remote store,
creation fails with the duplicate-title outcome and the cache is not
mutated; on every non-success outcome the cache is unchanged; only on
insert success does the cache gain an entry, by prepending the
server-returned record, whose status defaults to todo when the input
leaves it unspecified. -/
theorem create_not_optimistic (remote cache : List Task) (uid : String)
    (inp : CreateInput) (fetchErr insertErr : Bool) (newId : String) (now : Int) :
    (fetchErr = false → (∃ t ∈ remote, t.user_id = uid ∧ t.title = inp.title) →
      handleCreateTask remote cache uid inp fetchErr insertErr newId now
        = (CreateResult.duplicateTitle, cache)) ∧
    (∀ r c1, handleCreateTask remote cache uid inp fetchErr insertErr newId now = (r, c1) →
      (∀ t, r ≠ CreateResult.ok t) → c1 = cache) ∧
    (∀ t c1, handleCreateTask remote cache uid inp fetchErr insertErr newId now
        = (CreateResult.ok t, c1) →
      c1 = t :: cache ∧ t = serverInsert uid newId now inp ∧
        (inp.status = none → t.status = Status.todo)) := by
  refine ⟨?_, ?_, ?_⟩
  · intro hf hdup
    have hd := (exists_dup_iff remote uid inp.title).mpr hdup
    simp [handleCreateTask, hf, hd]
  · intro r c1 heq hr
    unfold handleCreateTask at heq
    split_ifs at heq <;> try (cases heq; rfl)
    exact absurd (congrArg Prod.fst heq).symm (hr _)
  · intro t c1 heq
    unfold handleCreateTask at heq
    split_ifs at heq <;> cases heq
    refine ⟨rfl, rfl, fun hs => ?_⟩
    simp [serverInsert, hs]

/-- Concrete creation input matching the title of the sample task. -/
def inpMilk : CreateInput :=
  { title := "Buy milk", description := "", category := "Work",
    priority := Priority.low, status := none, due_date := some 1 }

theorem create_not_optimistic_witness :
    handleCreateTask [taskA] [taskA] "u" inpMilk false false "c" 5
      = (CreateResult.duplicateTitle, [taskA]) ∧
    (serverInsert "u" "c" 5 inpMilk).status = Status.todo := by
  have h := create_not_optimistic [taskA] [taskA] "u" inpMilk false false "c" 5
  have h2 := (create_not_optimistic [] [taskA] "u" inpMilk false false "c" 5).2.2
    (serverInsert "u" "c" 5 inpMilk) (serverInsert "u" "c" 5 inpMilk :: [taskA]) (by rfl)
  exact ⟨h.1 rfl ⟨taskA, by simp, rfl, rfl⟩, h2.2.2 rfl⟩

/-- Claim C6: toggle-complete changes only the completed field of the task
with the given id and status-change changes only its status field, leaving
every other field of that task and every other task unchanged; the status
cycle of the TaskCard button maps todo to in-progress, in-progress to
done, and done back to todo. -/
theorem restricted_updates_frame :
    nextStatus Status.todo = Status.inProgress ∧
    nextStatus Status.inProgress = Status.done ∧
    nextStatus Status.done = Status.todo ∧
    (∀ (cache : List Task) (id : String) (c : Bool),
      List.Forall₂ (fun t t1 =>
        t1.id = t.id ∧ t1.user_id = t.user_id ∧ t1.title = t.title ∧
        t1.description = t.description ∧ t1.category = t.category ∧
        t1.priority = t.priority ∧ t1.status = t.status ∧
        t1.due_date = t.due_date ∧ t1.created_at = t.created_at ∧
        t1.updated_at = t.updated_at ∧
        (t.id = id → t1.completed = c) ∧ (t.id ≠ id → t1.completed = t.completed))
        cache (handleToggleCompleteCache cache id c false)) ∧
    (∀ (cache : List Task) (id : String) (s : Status),
      List.Forall₂ (fun t t1 =>
        t1.id = t.id ∧ t1.user_id = t.user_id ∧ t1.title = t.title ∧
        t1.description = t.description ∧ t1.category = t.category ∧
        t1.priority = t.priority ∧ t1.completed = t.completed ∧
        t1.due_date = t.due_date ∧ t1.created_at = t.created_at ∧
        t1.updated_at = t.updated_at ∧
        (t.id = id → t1.status = s) ∧ (t.id ≠ id → t1.status = t.status))
        cache (handleStatusChangeCache cache id s false)) := by
  refine ⟨by decide, by decide, by decide, ?_, ?_⟩
  · intro cache id c
    cases hf : cache.find? (fun t => decide (t.id = id)) with
    | none =>
      have habs := List.find?_eq_none.mp hf
      simp only [handleToggleCompleteCache, hf]
      rw [List.forall₂_same]
      intro t ht
      have : t.id ≠ id := by simpa using habs t ht
      simp [this]
    | some task =>
      simp only [handleToggleCompleteCache, hf, Bool.false_eq_true, if_false]
      rw [List.forall₂_map_right_iff, List.forall₂_same]
      intro t _
      by_cases h : t.id = id <;> simp [h]
  · intro cache id s
    cases hf : cache.find? (fun t => decide (t.id = id)) with
    | none =>
      have habs := List.find?_eq_none.mp hf
      simp only [handleStatusChangeCache, hf]
      rw [List.forall₂_same]
      intro t ht
      have : t.id ≠ id := by simpa using habs t ht
      simp [this]
    | some task =>
      simp only [handleStatusChangeCache, hf, Bool.false_eq_true, if_false]
      rw [List.forall₂_map_right_iff, List.forall₂_same]
      intro t _
      by_cases h : t.id = id <;> simp [h]

theorem restricted_updates_frame_witness :
    nextStatus Status.todo = Status.inProgress ∧ nextStatus Status.done = Status.todo :=
  ⟨restricted_updates_frame.1, restricted_updates_frame.2.2.1⟩

/-- State-level effect of a change-feed event: the subscription callback
of the source mutates only the task list and never touches the selection
state. -/
def feedStep (uid : String) (st : List Task × Finset String) (e : FeedEvent) :
    List Task × Finset String :=
  (applyFeedEvent uid st.1 e, st.2)

/-- Claim C3 counterexample: starting from a reachable state whose cache
holds one task that is selected, ingesting the change-feed delete event
for that task empties the cache but leaves the id in the selection, so the
selection references an id absent from the cache. -/
theorem feed_delete_leaves_stale_selection :
    (feedStep "u" (applyFeedEvent "u" [] (FeedEvent.insertEv taskA),
        toggleTaskSelection ∅ taskA.id) (FeedEvent.deleteEv taskA)).1 = [] ∧
    taskA.id ∈ (feedStep "u" (applyFeedEvent "u" [] (FeedEvent.insertEv taskA),
        toggleTaskSelection ∅ taskA.id) (FeedEvent.deleteEv taskA)).2 := by
  constructor
  · rfl
  · decide

/-- Claim C3 (amended): the local delete paths preserve the selection
invariant: after a single delete or a bulk delete, on remote success or
failure, every selected id still names a record in the cache whenever it
did before. Ingestion of a change-feed delete event removes the record but
does not prune the selection, so the invariant can break on that path. -/
theorem selection_pruned_on_local_deletes (cache : List Task) (sel : Finset String)
    (hinv : selInv cache sel) :
    (∀ id fails, selInv (handleDeleteTaskCache cache id fails)
      (handleDeleteTaskSel sel id fails)) ∧
    (∀ fails, selInv (handleBulkDeleteCache cache sel fails)
      (handleBulkDeleteSel sel fails)) := by
  constructor
  · intro id fails i hi
    cases fails with
    | true =>
      simp only [handleDeleteTaskSel, if_true] at hi
      obtain ⟨t, ht, hid⟩ := hinv i hi
      by_cases h : i = id
      · cases hfind : cache.find? (fun t => decide (t.id = id)) with
        | none =>
          exact absurd (by simp [hid, h]) (List.find?_eq_none.mp hfind t ht)
        | some x =>
          have hx : x.id = id := by simpa using List.find?_some hfind
          refine ⟨x, ?_, by rw [hx, h]⟩
          simp [handleDeleteTaskCache, hfind]
      · have hmem : t ∈ cache.filter (fun t => decide (¬ t.id = id)) :=
          List.mem_filter.mpr ⟨ht, by simp [hid, h]⟩
        refine ⟨t, ?_, hid⟩
        simp only [handleDeleteTaskCache, if_true]
        cases cache.find? (fun t => decide (t.id = id)) with
        | none => exact hmem
        | some x => exact List.mem_append_left _ hmem
    | false =>
      have hisel : i ∈ sel ∧ i ≠ id := by
        by_cases h : id ∈ sel
        · simp only [handleDeleteTaskSel, Bool.false_eq_true, if_false, if_pos h] at hi
          exact ⟨Finset.mem_of_mem_erase hi, Finset.ne_of_mem_erase hi⟩
        · simp only [handleDeleteTaskSel, Bool.false_eq_true, if_false, if_neg h] at hi
          exact ⟨hi, fun hEq => h (hEq ▸ hi)⟩
      obtain ⟨t, ht, hid⟩ := hinv i hisel.1
      refine ⟨t, ?_, hid⟩
      simp only [handleDeleteTaskCache, Bool.false_eq_true, if_false]
      exact List.mem_filter.mpr ⟨ht, by simp [hid, hisel.2]⟩
  · intro fails i hi
    by_cases hc : sel.card = 0
    · simp only [handleBulkDeleteSel, if_pos hc] at hi
      simp only [handleBulkDeleteCache, if_pos hc]
      exact hinv i hi
    · cases fails with
      | true =>
        simp only [handleBulkDeleteSel, if_neg hc, if_true] at hi
        obtain ⟨t, ht, hid⟩ := hinv i hi
        refine ⟨t, ?_, hid⟩
        simp only [handleBulkDeleteCache, if_neg hc, if_true]
        by_cases h : t.id ∈ sel
        · exact List.mem_append_right _ (List.mem_filter.mpr ⟨ht, by simp [h]⟩)
        · exact List.mem_append_left _ (List.mem_filter.mpr ⟨ht, by simp [h]⟩)
      | false =>
        simp only [handleBulkDeleteSel, if_neg hc, Bool.false_eq_true, if_false] at hi
        exact absurd hi (Finset.not_mem_empty i)

theorem selection_pruned_on_local_deletes_witness :
    selInv (handleDeleteTaskCache [taskA, taskB] "a" true)
      (handleDeleteTaskSel {"a", "b"} "a" true) :=
  (selection_pruned_on_local_deletes [taskA, taskB] {"a", "b"} (by decide)).1 "a" true

theorem delete_fail_perm (cache : List Task) (id : String) (hu : uniqueIds cache) :
    (handleDeleteTaskCache cache id true).Perm cache := by
  induction cache with
  | nil => simp [handleDeleteTaskCache]
  | cons t rest ih =>
    have hu' : uniqueIds rest := by
      simpa [uniqueIds] using (List.nodup_cons.mp hu).2
    have hnotin : t.id ∉ rest.map Task.id := by
      simpa [uniqueIds] using (List.nodup_cons.mp hu).1
    specialize ih hu'
    by_cases h : t.id = id
    · have hfind : (t :: rest).find? (fun x => decide (x.id = id)) = some t := by
        rw [List.find?_cons_of_pos]
        simp [h]
      have hfil : rest.filter (fun x => decide (¬ x.id = id)) = rest := by
        rw [List.filter_eq_self]
        intro a ha
        have : a.id ≠ id := fun hEq => hnotin (h ▸ hEq ▸ List.mem_map_of_mem Task.id ha)
        simp [this]
      simp only [handleDeleteTaskCache, hfind, if_true]
      rw [List.filter_cons_of_neg (by simp [h]), hfil]
      exact List.perm_append_singleton t rest
    · have hfind : (t :: rest).find? (fun x => decide (x.id = id))
          = rest.find? (fun x => decide (x.id = id)) := by
        rw [List.find?_cons_of_neg]
        simp [h]
      simp only [handleDeleteTaskCache, if_true] at ih ⊢
      rw [hfind, List.filter_cons_of_pos (by simp [h])]
      cases hr : rest.find? (fun x => decide (x.id = id)) with
      | none =>
        rw [hr] at ih
        exact ih.cons t
      | some x =>
        rw [hr] at ih
        exact ih.cons t

theorem bulk_delete_fail_perm (cache : List Task) (sel : Finset String) :
    (handleBulkDeleteCache cache sel true).Perm cache := by
  by_cases hc : sel.card = 0
  · simp [handleBulkDeleteCache, hc]
  · simp only [handleBulkDeleteCache, if_neg hc, if_true]
    induction cache with
    | nil => simp
    | cons t rest ih =>
      by_cases h : t.id ∈ sel
      · rw [List.filter_cons_of_neg (by simp [h]), List.filter_cons_of_pos (by simp [h])]
        exact List.perm_middle.trans (ih.cons t)
      · rw [List.filter_cons_of_pos (by simp [h]), List.filter_cons_of_neg (by simp [h]),
          List.cons_append]
        exact ih.cons t

theorem update_fail_restores (remote : List Task) (uid : String) (cache : List Task)
    (t0 : Task) (p : TaskFormData) (fe : Bool)
    (hrec : ∀ t ∈ cache, t.id = t0.id → t = t0) :
    handleUpdateTaskCache remote uid cache t0 p fe true = cache := by
  unfold handleUpdateTaskCache
  split_ifs with h h2
  · rfl
  · rw [List.map_map]
    apply map_self_of_fix
    intro t ht
    by_cases hid : t.id = t0.id
    · simp only [Function.comp]
      rw [if_pos hid, if_pos (show (mergePatch t0 p).id = t0.id from rfl)]
      exact (hrec t ht hid).symm
    · simp [Function.comp, hid]
  · exact absurd rfl h2

theorem toggle_fail_restores (cache : List Task) (id : String) (c : Bool)
    (hu : uniqueIds cache) :
    handleToggleCompleteCache cache id c true = cache := by
  unfold handleToggleCompleteCache
  cases hf : cache.find? (fun t => decide (t.id = id)) with
  | none => rfl
  | some task =>
    have htask : task ∈ cache := List.mem_of_find?_eq_some hf
    simp only [if_true]
    rw [List.map_map]
    apply map_self_of_fix
    intro t ht
    by_cases hid : t.id = id
    · have htid : task.id = id := by simpa using List.find?_some hf
      have heq : t = task := idInj hu ht htask (by rw [hid, htid])
      rw [heq]
      simp only [Function.comp]
      rw [if_pos htid, if_pos (show ({ task with completed := c } : Task).id = id from htid)]
    · simp [Function.comp, hid]

theorem status_fail_restores (cache : List Task) (id : String) (s : Status)
    (hu : uniqueIds cache) :
    handleStatusChangeCache cache id s true = cache := by
  unfold handleStatusChangeCache
  cases hf : cache.find? (fun t => decide (t.id = id)) with
  | none => rfl
  | some task =>
    have htask : task ∈ cache := List.mem_of_find?_eq_some hf
    simp only [if_true]
    rw [List.map_map]
    apply map_self_of_fix
    intro t ht
    by_cases hid : t.id = id
    · have htid : task.id = id := by simpa using List.find?_some hf
      have heq : t = task := idInj hu ht htask (by rw [hid, htid])
      rw [heq]
      simp only [Function.comp]
      rw [if_pos htid, if_pos (show ({ task with status := s } : Task).id = id from htid)]
    · simp [Function.comp, hid]

theorem bulk_complete_fail_restores (cache : List Task) (sel : Finset String)
    (hu : uniqueIds cache) :
    handleBulkMarkAsCompletedCache cache sel true = cache := by
  unfold handleBulkMarkAsCompletedCache
  split_ifs with hc h2
  · rfl
  · rw [List.map_map]
    apply map_self_of_fix
    intro t ht
    by_cases h : t.id ∈ sel
    · have hfilmem : t ∈ cache.filter (fun x => decide (x.id ∈ sel)) :=
        List.mem_filter.mpr ⟨ht, by simp [h]⟩
      simp only [Function.comp, if_pos h]
      cases hfo : (cache.filter (fun x => decide (x.id ∈ sel))).find?
          (fun o => decide (o.id = ({ t with completed := true, status := Status.done } : Task).id)) with
      | none =>
        exact absurd (by simp) (List.find?_eq_none.mp hfo t hfilmem)
      | some o =>
        have hom : o ∈ cache := List.mem_of_mem_filter (List.mem_of_find?_eq_some hfo)
        have hoid : o.id = t.id := by simpa using List.find?_some hfo
        have heq : o = t := idInj hu hom ht hoid
        exact heq
    · simp only [Function.comp, if_neg h]
      have hnone : (cache.filter (fun x => decide (x.id ∈ sel))).find?
          (fun o => decide (o.id = t.id)) = none := by
        rw [List.find?_eq_none]
        intro x hx
        have hxsel : x.id ∈ sel := by simpa using (List.mem_filter.mp hx).2
        simp only [decide_eq_true_eq]
        exact fun hEq => h (hEq ▸ hxsel)
      simp [hnone]
  · exact absurd rfl h2

/-- Claim C1 (amended): whenever the remote operation of a single mutation
fails, the cache is restored bit-for-bit for create (no success), update,
toggle-complete, status-change and bulk complete; for single delete and
bulk delete the rollback re-appends the removed records at the end of the
list, so the cache after failure handling is a permutation of the cache
before the mutation holding exactly the same records, with ordered
equality only when the removed records were at the tail. -/
theorem rollback_restores_cache (cache : List Task) (hu : uniqueIds cache) :
    (∀ (remote : List Task) (uid : String) (inp : CreateInput) (fe ie : Bool)
        (nid : String) (now : Int) (r : CreateResult) (c1 : List Task),
      handleCreateTask remote cache uid inp fe ie nid now = (r, c1) →
      (∀ t, r ≠ CreateResult.ok t) → c1 = cache) ∧
    (∀ (remote : List Task) (uid : String) (t0 : Task) (p : TaskFormData) (fe : Bool),
      (∀ t ∈ cache, t.id = t0.id → t = t0) →
      handleUpdateTaskCache remote uid cache t0 p fe true = cache) ∧
    (∀ id c, handleToggleCompleteCache cache id c true = cache) ∧
    (∀ id s, handleStatusChangeCache cache id s true = cache) ∧
    (∀ id, (handleDeleteTaskCache cache id true).Perm cache) ∧
    (∀ sel, (handleBulkDeleteCache cache sel true).Perm cache) ∧
    (∀ sel, handleBulkMarkAsCompletedCache cache sel true = cache) := by
  refine ⟨?_, ?_, ?_, ?_, ?_, ?_, ?_⟩
  · intro remote uid inp fe ie nid now r c1 heq hr
    unfold handleCreateTask at heq
    split_ifs at heq <;> try (cases heq; rfl)
    exact absurd (congrArg Prod.fst heq).symm (hr _)
  · intro remote uid t0 p fe hrec
    exact update_fail_restores remote uid cache t0 p fe hrec
  · intro id c
    exact toggle_fail_restores cache id c hu
  · intro id s
    exact status_fail_restores cache id s hu
  · intro id
    exact delete_fail_perm cache id hu
  · intro sel
    exact bulk_delete_fail_perm cache sel
  · intro sel
    exact bulk_complete_fail_restores cache sel hu

/-- Claim C1 counterexample: deleting the first of two cached tasks with a
failing remote delete re-appends the removed record at the end, so the
cache after failure handling differs from the cache before the mutation as
an ordered sequence. -/
theorem deleteTask_rollback_reorders :
    handleDeleteTaskCache [taskA, taskB] "a" true = [taskB, taskA] ∧
    [taskB, taskA] ≠ [taskA, taskB] := by
  constructor
  · decide
  · decide

theorem rollback_restores_cache_witness :
    uniqueIds [taskA, taskB] ∧
    handleToggleCompleteCache [taskA, taskB] "a" true true = [taskA, taskB] ∧
    (handleDeleteTaskCache [taskA, taskB] "a" true).Perm [taskA, taskB] ∧
    handleBulkMarkAsCompletedCache [taskA, taskB] {"a", "b"} true = [taskA, taskB] := by
  have h := rollback_restores_cache [taskA, taskB] (by decide)
  exact ⟨by decide, h.2.2.1 "a" true, h.2.2.2.2.1 "a", h.2.2.2.2.2.2 {"a", "b"}⟩

/-- Operations on the task cache considered by the uniqueness invariant:
create-success insertion, change-feed ingestion, update with rollback,
single and bulk delete with rollback, and bulk complete. Each constructor
carries the inputs and remote outcomes of its handler. -/
inductive CacheOp where
  | createOp (remote : List Task) (inp : CreateInput) (fetchErr insertErr : Bool)
      (newId : String) (now : Int)
  | feedOp (e : FeedEvent)
  | updateOp (remote : List Task) (t0 : Task) (p : TaskFormData)
      (fetchErr updateFails : Bool)
  | deleteOp (id : String) (fails : Bool)
  | bulkDeleteOp (sel : Finset String) (fails : Bool)
  | bulkCompleteOp (sel : Finset String) (fails : Bool)

/-- Effect of one cache operation on the cache. -/
def applyCacheOp (uid : String) (cache : List Task) : CacheOp → List Task
  | .createOp remote inp fe ie nid now =>
    (handleCreateTask remote cache uid inp fe ie nid now).2
  | .feedOp e => applyFeedEvent uid cache e
  | .updateOp remote t0 p fe uf => handleUpdateTaskCache remote uid cache t0 p fe uf
  | .deleteOp id fails => handleDeleteTaskCache cache id fails
  | .bulkDeleteOp sel fails => handleBulkDeleteCache cache sel fails
  | .bulkCompleteOp sel fails => handleBulkMarkAsCompletedCache cache sel fails

/-- Effect of a sequence of cache operations, applied left to right. -/
def applyCacheOps (uid : String) (cache : List Task) : List CacheOp → List Task
  | [] => cache
  | op :: rest => applyCacheOps uid (applyCacheOp uid cache op) rest

/-- Freshness side condition: every create operation in the sequence that
succeeds returns a record whose id is not already cached at the moment the
insertion is applied. -/
def freshCreates (uid : String) : List Task → List CacheOp → Bool
  | _, [] => true
  | cache, op :: rest =>
    (match op with
     | .createOp remote inp fe ie nid now =>
       match (handleCreateTask remote cache uid inp fe ie nid now).1 with
       | .ok t => !(decide (t.id ∈ cache.map Task.id))
       | _ => true
     | _ => true) && freshCreates uid (applyCacheOp uid cache op) rest

theorem uniqueIds_filter (cache : List Task) (p : Task → Bool) (hu : uniqueIds cache) :
    uniqueIds (cache.filter p) :=
  List.Nodup.sublist (List.Sublist.map Task.id (List.filter_sublist cache)) hu

theorem uniqueIds_map_preserve (cache : List Task) (f : Task → Task)
    (hf : ∀ t ∈ cache, (f t).id = t.id) (hu : uniqueIds cache) :
    uniqueIds (cache.map f) := by
  unfold uniqueIds
  rw [List.map_map]
  have heq : List.map (Task.id ∘ f) cache = List.map Task.id cache :=
    List.map_congr_left (fun a ha => hf a ha)
  rw [heq]
  exact hu

theorem handleCreateTask_cases (remote cache : List Task) (uid : String)
    (inp : CreateInput) (fe ie : Bool) (nid : String) (now : Int) :
    (handleCreateTask remote cache uid inp fe ie nid now).2 = cache ∨
    ((handleCreateTask remote cache uid inp fe ie nid now).1
        = CreateResult.ok (serverInsert uid nid now inp) ∧
      (handleCreateTask remote cache uid inp fe ie nid now).2
        = serverInsert uid nid now inp :: cache) := by
  unfold handleCreateTask
  split_ifs <;> simp

theorem uniqueIds_applyCacheOp (uid : String) (cache : List Task) (op : CacheOp)
    (hu : uniqueIds cache)
    (hfresh : (match op with
      | CacheOp.createOp remote inp fe ie nid now =>
        match (handleCreateTask remote cache uid inp fe ie nid now).1 with
        | CreateResult.ok t => !(decide (t.id ∈ cache.map Task.id))
        | _ => true
      | _ => true) = true) :
    uniqueIds (applyCacheOp uid cache op) := by
  cases op with
  | createOp remote inp fe ie nid now =>
    simp only [applyCacheOp]
    rcases handleCreateTask_cases remote cache uid inp fe ie nid now with h | ⟨h1, h2⟩
    · rw [h]; exact hu
    · rw [h2]
      have hfresh2 : (match (handleCreateTask remote cache uid inp fe ie nid now).1 with
          | CreateResult.ok t => !(decide (t.id ∈ cache.map Task.id))
          | _ => true) = true := hfresh
      rw [h1] at hfresh2
      simp only [Bool.not_eq_eq_eq_not, Bool.not_true, decide_eq_false_iff_not] at hfresh2
      unfold uniqueIds
      rw [List.map_cons]
      exact List.nodup_cons.mpr ⟨hfresh2, hu⟩
  | feedOp e =>
    cases e with
    | insertEv t =>
      simp only [applyCacheOp, applyFeedEvent]
      split_ifs with hg hp
      · exact hu
      · exact hu
      · have : t.id ∉ cache.map Task.id := by
          intro hmem
          obtain ⟨c, hc, hcid⟩ := List.mem_map.mp hmem
          exact hp (List.any_eq_true.mpr ⟨c, hc, by simp [hcid]⟩)
        unfold uniqueIds
        rw [List.map_cons]
        exact List.nodup_cons.mpr ⟨this, hu⟩
    | updateEv t =>
      simp only [applyCacheOp, applyFeedEvent]
      split_ifs with hg
      · exact hu
      · refine uniqueIds_map_preserve cache _ (fun c _ => ?_) hu
        by_cases h : c.id = t.id <;> simp [h]
    | deleteEv t =>
      simp only [applyCacheOp, applyFeedEvent]
      split_ifs with hg
      · exact hu
      · exact uniqueIds_filter cache _ hu
  | updateOp remote t0 p fe uf =>
    simp only [applyCacheOp]
    unfold handleUpdateTaskCache
    split_ifs with h h2
    · exact hu
    · refine uniqueIds_map_preserve _ _ (fun t ht => ?_)
        (uniqueIds_map_preserve cache _ (fun t _ => ?_) hu)
      · by_cases hid : t.id = t0.id <;> simp [hid]
      · by_cases hid : t.id = t0.id <;> simp [hid, mergePatch]
    · refine uniqueIds_map_preserve cache _ (fun t _ => ?_) hu
      by_cases hid : t.id = t0.id <;> simp [hid, mergePatch]
  | deleteOp id fails =>
    cases fails with
    | true =>
      have hperm := (delete_fail_perm cache id hu).map Task.id
      exact hperm.nodup_iff.mpr hu
    | false =>
      simp only [applyCacheOp, handleDeleteTaskCache, Bool.false_eq_true, if_false]
      exact uniqueIds_filter cache _ hu
  | bulkDeleteOp sel fails =>
    cases fails with
    | true =>
      have hperm := (bulk_delete_fail_perm cache sel).map Task.id
      exact hperm.nodup_iff.mpr hu
    | false =>
      simp only [applyCacheOp, handleBulkDeleteCache, Bool.false_eq_true, if_false]
      split_ifs with hc
      · exact hu
      · exact uniqueIds_filter cache _ hu
  | bulkCompleteOp sel fails =>
    cases fails with
    | true =>
      rw [show applyCacheOp uid cache (CacheOp.bulkCompleteOp sel true)
          = handleBulkMarkAsCompletedCache cache sel true from rfl,
        bulk_complete_fail_restores cache sel hu]
      exact hu
    | false =>
      simp only [applyCacheOp, handleBulkMarkAsCompletedCache, Bool.false_eq_true, if_false]
      split_ifs with hc
      · exact hu
      · refine uniqueIds_map_preserve cache _ (fun t _ => ?_) hu
        by_cases h : t.id ∈ sel <;> simp [h]

/-- Claim C2 (amended): along every sequence of cache operations of the
reconciliation controller, the cache never contains two records with the
same id, provided every successful create-success insertion happens while
its new id is still absent from the cache. The create-success path
prepends unconditionally, so when the change-feed INSERT echo for the
created task is ingested before the create response, the insertion
duplicates the id and the invariant fails; every other operation preserves
uniqueness unconditionally. -/
theorem uniqueIds_preserved (uid : String) (ops : List CacheOp) :
    ∀ cache, uniqueIds cache → freshCreates uid cache ops = true →
      uniqueIds (applyCacheOps uid cache ops) := by
  induction ops with
  | nil => intro cache hu _; exact hu
  | cons op rest ih =>
    intro cache hu hf
    simp only [freshCreates, Bool.and_eq_true] at hf
    exact ih _ (uniqueIds_applyCacheOp uid cache op hu hf.1) hf.2

/-- Claim C2 counterexample: starting from the empty cache, the change-feed
INSERT echo of a created record arrives first and is cached; the create
response then prepends the same server record unconditionally, leaving two
records with the same id in the cache. -/
theorem create_after_feed_echo_duplicates :
    ¬ uniqueIds (applyCacheOps "u" []
      [CacheOp.feedOp (FeedEvent.insertEv (serverInsert "u" "t1" 0 inpMilk)),
       CacheOp.createOp [] inpMilk false false "t1" 0]) := by
  decide

theorem uniqueIds_preserved_witness :
    uniqueIds (applyCacheOps "u" [taskA]
      [CacheOp.feedOp (FeedEvent.insertEv taskB), CacheOp.deleteOp "a" true,
       CacheOp.bulkCompleteOp {"b"} false]) :=
  uniqueIds_preserved "u"
    [CacheOp.feedOp (FeedEvent.insertEv taskB), CacheOp.deleteOp "a" true,
     CacheOp.bulkCompleteOp {"b"} false] [taskA] (by decide) (by decide)

/-- Claim C7: filtering is conjunctive: a task appears in the projected
list exactly when it is in the cache and satisfies every active (non-all)
filter; moreover a task due exactly today at local midnight passes the
today bucket and fails the overdue bucket even when not completed. -/
theorem filtering_conjunctive (today monthFromNow : Int) (filters : FilterOptions)
    (sortBy : SortOption) (tasks : List Task) (t : Task) :
    (t ∈ filteredAndSortedTasks today monthFromNow filters sortBy tasks ↔
      t ∈ tasks ∧
      (filters.category ≠ "all" → t.category = filters.category) ∧
      (filters.priority ≠ "all" → priorityStr t.priority = filters.priority) ∧
      (filters.status ≠ "all" → statusStr t.status = filters.status) ∧
      (filters.dueDateRange ≠ DueRange.all →
        duePass today monthFromNow filters.dueDateRange t = true)) ∧
    (t.due_date = some today →
      duePass today monthFromNow DueRange.today t = true ∧
      duePass today monthFromNow DueRange.overdue t = false) := by
  constructor
  · simp only [filteredAndSortedTasks, sortTasks, List.mem_mergeSort, filterTasks]
    split_ifs with h1 h2 h3 h4 <;> simp_all [List.mem_filter] <;> tauto
  · intro hd
    exact ⟨by simp [duePass, hd], by simp [duePass, hd]⟩

theorem filtering_conjunctive_witness :
    taskA ∈ filteredAndSortedTasks 1 31
      { category := "Work", priority := "all", status := "all",
        dueDateRange := DueRange.today }
      SortOption.newest [taskA, taskB] := by
  have h := (filtering_conjunctive 1 31
      { category := "Work", priority := "all", status := "all",
        dueDateRange := DueRange.today }
      SortOption.newest [taskA, taskB] taskA).1
  exact h.mpr ⟨by decide, by decide, by decide, by decide, by decide⟩

/-- Ordering property asserted by the sorting claim for the pairs of the
projected list: completed after incomplete, and within equal completion
the chosen key ordering. -/
def claimOrder (sortBy : SortOption) (a b : Task) : Prop :=
  (a.completed = true → b.completed = true) ∧
  (a.completed = b.completed →
    (sortBy = SortOption.newest → b.created_at ≤ a.created_at) ∧
    (sortBy = SortOption.oldest → a.created_at ≤ b.created_at) ∧
    (sortBy = SortOption.due_date →
      (∀ x y, a.due_date = some x → b.due_date = some y → x ≤ y) ∧
      (a.due_date = none → b.due_date = none)) ∧
    (sortBy = SortOption.priority → priorityOrder a.priority ≤ priorityOrder b.priority))

theorem taskLE_trans (sortBy : SortOption) (a b c : Task)
    (hab : taskLE sortBy a b = true) (hbc : taskLE sortBy b c = true) :
    taskLE sortBy a c = true := by
  simp only [taskLE, decide_eq_true_eq] at hab hbc ⊢
  unfold compareTasks at hab hbc ⊢
  cases ha : a.completed <;> cases hb : b.completed <;> cases hc : c.completed <;>
    simp only [ha, hb, hc] at hab hbc ⊢ <;> simp at hab hbc ⊢ <;>
    cases sortBy <;>
    first
      | omega
      | (rcases hda : a.due_date with _ | x <;> rcases hdb : b.due_date with _ | y <;>
          rcases hdc : c.due_date with _ | z <;> simp_all <;> omega)

theorem taskLE_total (sortBy : SortOption) (a b : Task) :
    taskLE sortBy a b || taskLE sortBy b a := by
  simp only [taskLE, Bool.or_eq_true, decide_eq_true_eq]
  unfold compareTasks
  cases ha : a.completed <;> cases hb : b.completed <;> simp <;>
    cases sortBy <;>
    first
      | omega
      | (rcases a.due_date with _ | x <;> rcases b.due_date with _ | y <;> simp <;> omega)

/-- Key part of the comparator, after the completion buckets agree. -/
def compareKey (sortBy : SortOption) (a b : Task) : Int :=
  match sortBy with
  | .newest => b.created_at - a.created_at
  | .oldest => a.created_at - b.created_at
  | .due_date =>
    match a.due_date, b.due_date with
    | none, none => 0
    | none, some _ => 1
    | some _, none => -1
    | some x, some y => x - y
  | .priority => priorityOrder a.priority - priorityOrder b.priority

theorem key_le_claim (sortBy : SortOption) (a b : Task)
    (h : compareKey sortBy a b ≤ 0) :
    (sortBy = SortOption.newest → b.created_at ≤ a.created_at) ∧
    (sortBy = SortOption.oldest → a.created_at ≤ b.created_at) ∧
    (sortBy = SortOption.due_date →
      (∀ x y, a.due_date = some x → b.due_date = some y → x ≤ y) ∧
      (a.due_date = none → b.due_date = none)) ∧
    (sortBy = SortOption.priority → priorityOrder a.priority ≤ priorityOrder b.priority) := by
  cases sortBy
  case newest =>
    simp only [compareKey] at h
    exact ⟨fun _ => by omega, by simp, by simp, by simp⟩
  case oldest =>
    simp only [compareKey] at h
    exact ⟨by simp, fun _ => by omega, by simp, by simp⟩
  case due_date =>
    refine ⟨by simp, by simp, fun _ => ?_, by simp⟩
    simp only [compareKey] at h
    rcases hda : a.due_date with _ | x <;> rcases hdb : b.due_date with _ | y <;>
        rw [hda, hdb] at h
    · exact ⟨fun u v hu _ => (by cases hu), fun _ => rfl⟩
    · have h1 : (1 : Int) ≤ 0 := h
      exact absurd h1 (by omega)
    · exact ⟨fun u v _ hv => (by cases hv), fun hn => by cases hn⟩
    · refine ⟨fun u v hu hv => ?_, fun hn => by cases hn⟩
      cases hu
      cases hv
      have h1 : x - y ≤ 0 := h
      omega
  case priority =>
    simp only [compareKey] at h
    exact ⟨by simp, by simp, by simp, fun _ => by omega⟩

theorem taskLE_claimOrder (sortBy : SortOption) (a b : Task)
    (h : taskLE sortBy a b = true) : claimOrder sortBy a b := by
  simp only [taskLE, decide_eq_true_eq] at h
  unfold compareTasks at h
  unfold claimOrder
  cases ha : a.completed <;> cases hb : b.completed <;> rw [ha, hb] at h <;> simp at h
  case false.false =>
    exact ⟨fun h1 => h1, fun _ => key_le_claim sortBy a b h⟩
  case false.true =>
    exact ⟨fun h1 => absurd h1 (by decide), fun h1 => absurd h1 (by decide)⟩
  case true.true =>
    exact ⟨fun _ => rfl, fun _ => key_le_claim sortBy a b h⟩

/-- Claim C8: in the projected list every completed task is ordered after
every incomplete task regardless of the chosen sort key, and within equal
completion the list follows the chosen key: newest and oldest by creation
timestamp descending respectively ascending, due date ascending with
missing due dates last, and priority in the order high, medium, low. -/
theorem sort_order_spec (today monthFromNow : Int) (filters : FilterOptions)
    (sortBy : SortOption) (tasks : List Task) :
    (filteredAndSortedTasks today monthFromNow filters sortBy tasks).Pairwise
      (claimOrder sortBy) := by
  have hs := @List.sorted_mergeSort Task (taskLE sortBy)
    (fun a b c hab hbc => taskLE_trans sortBy a b c hab hbc)
    (fun a b => taskLE_total sortBy a b)
    (filterTasks today monthFromNow filters tasks)
  simp only [filteredAndSortedTasks, sortTasks]
  exact hs.imp (fun hab => taskLE_claimOrder sortBy _ _ hab)

end TaskApp
